import Mathlib

/-!
Shallow embedding of the near-Earth-object catalog
(`src/models.py` and `src/database.py`).

Modelling conventions:

* Python `float` values are modelled by `PyFloat`: either an exact rational
  number or the not-a-number sentinel.  (No claim depends on rounding of
  decimal literals, only on zero/non-zero/NaN distinctions and on exact
  decimal values such as `16.84`, which rationals represent exactly.)
* The loosely-typed `**info` field bags are modelled by records of
  `Option String` fields, one per key the constructor reads; a missing key
  is `none` and a present key holds the raw string value from the data file.
* Python `None`-or-string attributes are `Option String`; Python dictionaries
  built by comprehension (later entries overwrite earlier ones) are modelled
  by `lastIdxWith`, which finds the index of the last matching element.
* Object references are modelled by positions: a `CloseApproach.neo`
  reference is the index of the NEO in the catalog's NEO list, and an entry
  of `NearEarthObject.approaches` is the index of the approach in the
  catalog's approach list.
* A Python expression that can raise (`float(...)` on a malformed string)
  is modelled in `Except String`; a constructor that cannot raise is total.
-/

/-- A Python floating-point value: an exact rational number, or the
not-a-number sentinel (`float('nan')`). -/
inductive PyFloat where
  | num : Rat → PyFloat
  | nan : PyFloat
  deriving DecidableEq, Repr

/-- Python truthiness of a float: `0.0` is falsy, every other float —
including `nan` — is truthy. -/
def PyFloat.truthy : PyFloat → Bool
  | .num q => q != 0
  | .nan => true

/-- Python truthiness of an optional string: `None` and `''` are falsy. -/
def pyTruthy : Option String → Bool
  | some s => s != ""
  | none => false

/-- Rendering of an optional string by a Python f-string: `None` prints as
the four-character string. -/
def pyStr : Option String → String
  | some s => s
  | none => "None"

/-- The whitespace characters stripped by Python's `str.strip()` (the
ASCII ones; the data files contain no exotic Unicode whitespace). -/
def isPyWhitespace (c : Char) : Bool :=
  c == ' ' || c == '\t' || c == '\n' || c == '\x0d' || c == '\x0b' || c == '\x0c'

/-- Strip leading and trailing whitespace from a character list. -/
def trimChars (cs : List Char) : List Char :=
  ((cs.dropWhile isPyWhitespace).reverse.dropWhile isPyWhitespace).reverse

/-- Python's `s.strip()`. -/
def pyStrip (s : String) : String :=
  String.mk (trimChars s.data)

/-- Numeric value of a list of decimal digit characters. -/
def digitsToNat (cs : List Char) : Nat :=
  cs.foldl (fun a c => a * 10 + (c.toNat - 48)) 0

/-- Python's `float(s)` on a plain decimal string literal: optional
whitespace around an optional sign followed by digits with at most one
decimal point.  Returns `none` where Python raises `ValueError`.  (Python
additionally accepts exponents and the words `inf`/`nan`; the source data
and the claims only exercise plain decimal literals.) -/
def pyFloatOfString? (s : String) : Option PyFloat :=
  let cs := trimChars s.data
  let (neg, cs) :=
    match cs with
    | '-' :: rest => (true, rest)
    | '+' :: rest => (false, rest)
    | _ => (false, cs)
  let intPart := cs.takeWhile (·.isDigit)
  let rest := cs.dropWhile (·.isDigit)
  match rest with
  | [] =>
    if intPart.isEmpty then none
    else
      let q : Rat := (digitsToNat intPart : Rat)
      some (.num (if neg then -q else q))
  | '.' :: frac =>
    if frac.all (·.isDigit) && !(intPart.isEmpty && frac.isEmpty) then
      let q : Rat := mkRat (digitsToNat intPart * 10 ^ frac.length + digitsToNat frac)
        (10 ^ frac.length)
      some (.num (if neg then -q else q))
    else none
  | _ => none

/-- The field bag read by `NearEarthObject.__init__`: the four keys the
constructor looks up, each possibly missing. -/
structure NEOInfo where
  pdes : Option String
  name : Option String
  diameter : Option String
  pha : Option String
  deriving DecidableEq, Repr

/-- A near-Earth object (`NearEarthObject` in `src/models.py`).  The
`approaches` collection holds indices into the catalog's approach list. -/
structure NearEarthObject where
  designation : Option String
  name : Option String
  diameter : PyFloat
  hazardous : Bool
  approaches : List Nat
  deriving DecidableEq, Repr

/-- The helper `NearEarthObject.is_blank(object)`:
`bool(object and object.strip())`, i.e. true exactly when the string has
non-whitespace content.  (Despite its name it tests for NON-blankness.) -/
def is_blank (o : String) : Bool :=
  o != "" && pyStrip o != ""

/-- The name coercion of `NearEarthObject.__init__`:
`info.get('name') if info.get('name', None) and self.is_blank(info.get('name')) else None`. -/
def neoNameOf (info : NEOInfo) : Option String :=
  match info.name with
  | some s => if s != "" && is_blank s then some s else none
  | none => none

/-- The diameter coercion of `NearEarthObject.__init__`:
`float(info.get('diameter')) if info.get('diameter', None) and self.is_blank(info.get('diameter')) else float('nan')`.
The `float(...)` call raises on a non-blank, non-numeric string, modelled
by `Except.error`. -/
def neoDiameterOf (info : NEOInfo) : Except String PyFloat :=
  match info.diameter with
  | some s =>
    if s != "" && is_blank s then
      match pyFloatOfString? s with
      | some v => Except.ok v
      | none => Except.error "could not convert string to float"
    else Except.ok PyFloat.nan
  | none => Except.ok PyFloat.nan

/-- The hazard coercion of `NearEarthObject.__init__`:
`True if info.get('pha', None) and info.get('pha') in ('Y', 'y') else False`. -/
def neoHazardousOf (info : NEOInfo) : Bool :=
  match info.pha with
  | some s => s != "" && (s == "Y" || s == "y")
  | none => false

/-- `NearEarthObject.__init__`: field coercion from the raw field bag; the
only fallible step is the diameter coercion. -/
def mkNEO (info : NEOInfo) : Except String NearEarthObject :=
  (neoDiameterOf info).map fun diameter =>
    { designation := info.pdes, name := neoNameOf info, diameter,
      hazardous := neoHazardousOf info, approaches := [] }

/-- The `fullname` property:
`f'{designation} ({name})' if name else f'{designation}'`. -/
def NearEarthObject.fullname (n : NearEarthObject) : String :=
  match n.name with
  | some s =>
    if s != "" then pyStr n.designation ++ " (" ++ s ++ ")"
    else pyStr n.designation
  | none => pyStr n.designation

/-- The dictionary returned by `NearEarthObject.serialize`. -/
structure NEOSerialized where
  designation : Option String
  name : String
  diameter_km : PyFloat
  potentially_hazardous : Bool
  deriving DecidableEq, Repr

/-- `NearEarthObject.serialize`: name falls back to the empty string when
absent or blank, the other fields are copied. -/
def NearEarthObject.serialize (n : NearEarthObject) : NEOSerialized :=
  { designation := n.designation
    name :=
      match n.name with
      | some s => if s != "" && is_blank s then s else ""
      | none => ""
    diameter_km := n.diameter
    potentially_hazardous := n.hazardous }

/-- Modelled from the spec: `cd_to_datetime` lives in the external
`helpers` module (not part of the core, src lacks it); it parses a compact
date-time code into a structured timestamp.  Timestamps are kept abstract
as their source code strings. -/
def cd_to_datetime (s : String) : String := s

/-- Modelled from the spec: `datetime_to_str` from the external `helpers`
module renders a structured timestamp back into a minute-precision display
string.  On the abstract timestamps of this model it returns the stored
code, and renders an absent timestamp the way a Python format of `None`
would. -/
def datetime_to_str : Option String → String
  | some t => t
  | none => "None"

/-- The field bag read by `CloseApproach.__init__`. -/
structure CAInfo where
  des : Option String
  dist : Option String
  cd : Option String
  v_rel : Option String
  deriving DecidableEq, Repr

/-- A close approach (`CloseApproach` in `src/models.py`).  The `neo`
reference is the index of the linked NEO in the catalog's NEO list,
`none` while unlinked. -/
structure CloseApproach where
  _designation : String
  distance : PyFloat
  time : Option String
  velocity : PyFloat
  neo : Option Nat
  deriving DecidableEq, Repr

/-- The distance and velocity coercion of `CloseApproach.__init__`:
`float(info.get(key, 0.0))`, i.e. `0.0` when the key is missing and a
fallible `float(...)` coercion otherwise. -/
def caFloatOf (o : Option String) : Except String PyFloat :=
  match o with
  | some s =>
    match pyFloatOfString? s with
    | some v => Except.ok v
    | none => Except.error "could not convert string to float"
  | none => Except.ok (PyFloat.num 0)

/-- The time coercion of `CloseApproach.__init__`:
`cd_to_datetime(info.get('cd')) if info.get('cd', None) else None`. -/
def caTimeOf (info : CAInfo) : Option String :=
  match info.cd with
  | some s => if s != "" then some (cd_to_datetime s) else none
  | none => none

/-- `CloseApproach.__init__`: staging designation defaults to the empty
string, the time is parsed only when the raw value is truthy, and `neo`
starts unset; the fallible steps are the two `float(...)` coercions. -/
def mkCloseApproach (info : CAInfo) : Except String CloseApproach := do
  let distance ← caFloatOf info.dist
  let velocity ← caFloatOf info.v_rel
  pure { _designation := info.des.getD "", distance, time := caTimeOf info,
         velocity, neo := none }

/-- The `time_str` property: `datetime_to_str(self.time)`. -/
def CloseApproach.time_str (ca : CloseApproach) : String :=
  datetime_to_str ca.time

/-- The dictionary returned by `CloseApproach.serialize`. -/
structure CASerialized where
  datetime_utc : String
  distance_au : PyFloat
  velocity_km_s : PyFloat
  deriving DecidableEq, Repr

/-- `CloseApproach.serialize`: `self.distance or float('nan')` keeps the
stored value when it is truthy and falls back to the not-a-number sentinel
otherwise (so exactly `0.0` becomes `nan`); same for velocity. -/
def CloseApproach.serialize (ca : CloseApproach) : CASerialized :=
  { datetime_utc := ca.time_str
    distance_au := if ca.distance.truthy then ca.distance else PyFloat.nan
    velocity_km_s := if ca.velocity.truthy then ca.velocity else PyFloat.nan }

/-- Index of the last element of a list satisfying a predicate.  This is
how a Python dict built by comprehension answers `get`: a later entry with
the same key overwrites an earlier one. -/
def lastIdxWith (p : α → Bool) : List α → Option Nat
  | [] => none
  | x :: xs =>
    match lastIdxWith p xs with
    | some i => some (i + 1)
    | none => if p x then some 0 else none

/-- Apply a function to the element at a position, when in range. -/
def modifyAt (f : α → α) : Nat → List α → List α
  | _, [] => []
  | 0, x :: xs => f x :: xs
  | k + 1, x :: xs => x :: modifyAt f k xs

/-- Pair every element with its position, starting from `b` (the shape of
Python iteration when object identity is replaced by position). -/
def indexed (b : Nat) : List α → List (Nat × α)
  | [] => []
  | x :: xs => (b, x) :: indexed (b + 1) xs

/-- The designation index `{neo.designation: neo for neo in self._neos}`,
answered as the position of the NEO a `get` would return.  Keys are
`Option String` because an NEO constructed without a `pdes` key has the
`None` designation, which Python happily uses as a dict key. -/
def desLookup (neos : List NearEarthObject) (k : Option String) : Option Nat :=
  lastIdxWith (fun n => n.designation == k) neos

/-- The name index `{neo.name: neo for neo in self._neos}`, answered as a
position.  Note the comprehension ranges over ALL NEOs, so an unnamed NEO
contributes an entry under the `None` key. -/
def nameLookup (neos : List NearEarthObject) (k : Option String) : Option Nat :=
  lastIdxWith (fun n => n.name == k) neos

/-- The linking loop of `NEODatabase.__init__`, in state-passing style:
for each approach (at position `j`), look up its staging designation in the
designation index built before the loop (`lookup`); on a hit at NEO
position `i`, set the approach's `neo` to `i` and append `j` to that NEO's
`approaches`; on a miss leave both untouched. -/
def linkLoop (lookup : String → Option Nat) (neos : List NearEarthObject) (j : Nat) :
    List CloseApproach → List NearEarthObject × List CloseApproach
  | [] => (neos, [])
  | ca :: rest =>
    match lookup ca._designation with
    | some i =>
      let neos' := modifyAt (fun n => { n with approaches := n.approaches ++ [j] }) i neos
      let r := linkLoop lookup neos' (j + 1) rest
      (r.1, { ca with neo := some i } :: r.2)
    | none =>
      let r := linkLoop lookup neos (j + 1) rest
      (r.1, ca :: r.2)

/-- The catalog (`NEODatabase`), after its constructor has run: the NEO
and approach collections with the links installed.  The two dict indexes
are recoverable from `_neos` (`desLookup` / `nameLookup`): the join only
mutates `approaches` and `neo` fields, never a designation or a name, so
looking the post-join list up agrees with the dict built pre-loop. -/
structure NEODatabase where
  _neos : List NearEarthObject
  _approaches : List CloseApproach
  deriving Repr

/-- `NEODatabase.__init__`: build the indexes over the incoming NEOs, then
run the linking loop over the approaches. -/
def mkNEODatabase (neos : List NearEarthObject) (cas : List CloseApproach) : NEODatabase :=
  let lookup := fun d => desLookup neos (some d)
  let r := linkLoop lookup neos 0 cas
  { _neos := r.1, _approaches := r.2 }

/-- `NEODatabase.get_neo_by_designation`: exact dict lookup, `None` when
absent.  The key type is `Option String` because the dict key of an NEO
without a designation is Python's `None`. -/
def NEODatabase.get_neo_by_designation (db : NEODatabase) (d : Option String) :
    Option NearEarthObject :=
  (desLookup db._neos d).bind (db._neos.get? ·)

/-- `NEODatabase.get_neo_by_name`: exact dict lookup on the name index,
`None` when absent. -/
def NEODatabase.get_neo_by_name (db : NEODatabase) (name : Option String) :
    Option NearEarthObject :=
  (nameLookup db._neos name).bind (db._neos.get? ·)

/-- The generator body of `NEODatabase.query`:
`for item in approaches: if all(f(item) for f in filters): yield item`.
The finite sequence of yielded items (laziness is not observable here). -/
def queryGen (filters : List (CloseApproach → Bool)) : List CloseApproach → List CloseApproach
  | [] => []
  | item :: rest =>
    if filters.all (fun f => f item) then item :: queryGen filters rest
    else queryGen filters rest

/-- `NEODatabase.query`: stream the approaches passing every filter. -/
def NEODatabase.query (db : NEODatabase) (filters : List (CloseApproach → Bool)) :
    List CloseApproach :=
  queryGen filters db._approaches

/-! Concrete data used to instantiate the claims: the worked example of
the spec (NEO 433 Eros and its 1900-Jan-01 approach) plus the small edge
cases the claims single out. -/

/-- The spec's example NEO field bag:
`{pdes: "433", name: "Eros", diameter: "16.84", pha: "N"}`. -/
def ex433info : NEOInfo :=
  { pdes := some "433", name := some "Eros", diameter := some "16.84", pha := some "N" }

/-- The NEO constructed from `ex433info`; `mkRat 1684 100` is the exact
rational `16.84`. -/
def n433 : NearEarthObject :=
  { designation := some "433", name := some "Eros", diameter := PyFloat.num (mkRat 1684 100),
    hazardous := false, approaches := [] }

/-- The spec's example approach field bag:
`{des: "433", dist: "0.15", v_rel: "5.5", cd: "1900-Jan-01 00:00"}`. -/
def exCAinfo : CAInfo :=
  { des := some "433", dist := some "0.15", cd := some "1900-Jan-01 00:00",
    v_rel := some "5.5" }

/-- The approach constructed from `exCAinfo` (`0.15` au, `5.5` km/s). -/
def ca433 : CloseApproach :=
  { _designation := "433", distance := PyFloat.num (mkRat 15 100),
    time := some "1900-Jan-01 00:00", velocity := PyFloat.num (mkRat 55 10), neo := none }

/-- An approach whose staging designation matches no NEO of the examples,
with zero (defaulted) distance and velocity. -/
def caMiss : CloseApproach :=
  { _designation := "999", distance := PyFloat.num 0, time := none,
    velocity := PyFloat.num 0, neo := none }

/-- An NEO without a name (e.g. constructed from a record whose `name`
field is blank). -/
def nNoName : NearEarthObject :=
  { designation := some "2010 PK9", name := none, diameter := PyFloat.nan,
    hazardous := false, approaches := [] }

/-- The NEO constructed from a field bag with no `pdes` key at all. -/
def nNoDes : NearEarthObject :=
  { designation := none, name := none, diameter := PyFloat.nan,
    hazardous := false, approaches := [] }

/-! Helper lemmas about the list machinery of the embedding. -/

theorem modifyAt_get? (f : α → α) (k : Nat) (xs : List α) (i : Nat) :
    (modifyAt f k xs).get? i = if i = k then (xs.get? i).map f else xs.get? i := by
  induction xs generalizing k i with
  | nil => simp [modifyAt]
  | cons x xs ih =>
    cases k with
    | zero =>
      cases i with
      | zero => simp [modifyAt]
      | succ i => simp [modifyAt]
    | succ k =>
      cases i with
      | zero => simp [modifyAt]
      | succ i =>
        simp only [modifyAt, List.get?_cons_succ, ih, Nat.succ_inj]

theorem indexed_get? (b : Nat) (l : List α) (k : Nat) :
    (indexed b l).get? k = (l.get? k).map (fun x => (b + k, x)) := by
  induction l generalizing b k with
  | nil => simp [indexed]
  | cons x xs ih =>
    cases k with
    | zero => simp [indexed]
    | succ k =>
      simp only [indexed, List.get?_cons_succ, ih]
      cases xs.get? k <;> simp [Nat.add_assoc, Nat.add_comm 1 k]

theorem mem_indexed {b : Nat} {l : List α} {p : Nat × α} (h : p ∈ indexed b l) :
    b ≤ p.1 ∧ l.get? (p.1 - b) = some p.2 := by
  induction l generalizing b with
  | nil => simp [indexed] at h
  | cons x xs ih =>
    simp only [indexed, List.mem_cons] at h
    rcases h with h | h
    · subst h; simp
    · rcases ih h with ⟨hb, hg⟩
      refine ⟨Nat.le_of_succ_le hb, ?_⟩
      have hlt : 1 ≤ p.1 - b := Nat.le_sub_of_add_le (by omega)
      have : p.1 - b = (p.1 - (b + 1)) + 1 := by omega
      rw [this, List.get?_cons_succ]
      exact hg

theorem indexed_map_fst_nodup (b : Nat) (l : List α) :
    ((indexed b l).map Prod.fst).Nodup := by
  induction l generalizing b with
  | nil => simp [indexed]
  | cons x xs ih =>
    simp only [indexed, List.map_cons, List.nodup_cons]
    refine ⟨?_, ih (b + 1)⟩
    intro hmem
    rcases List.mem_map.1 hmem with ⟨p, hp, hfst⟩
    have := (mem_indexed hp).1
    omega

theorem indexed_length (b : Nat) (l : List α) : (indexed b l).length = l.length := by
  induction l generalizing b with
  | nil => rfl
  | cons x xs ih => simp [indexed, ih]

theorem lastIdxWith_sound {p : α → Bool} {xs : List α} {i : Nat}
    (h : lastIdxWith p xs = some i) : ∃ x, xs.get? i = some x ∧ p x = true := by
  induction xs generalizing i with
  | nil => simp [lastIdxWith] at h
  | cons x xs ih =>
    simp only [lastIdxWith] at h
    cases hxs : lastIdxWith p xs with
    | some k =>
      rw [hxs] at h
      cases h
      rcases ih hxs with ⟨y, hy, hpy⟩
      exact ⟨y, by simpa using hy, hpy⟩
    | none =>
      rw [hxs] at h
      by_cases hpx : p x
      · simp [hpx] at h
        cases h
        exact ⟨x, rfl, hpx⟩
      · simp [hpx] at h

theorem lastIdxWith_eq_none {p : α → Bool} {xs : List α}
    (h : ∀ x ∈ xs, p x = false) : lastIdxWith p xs = none := by
  induction xs with
  | nil => rfl
  | cons x xs ih =>
    have hx := h x (List.mem_cons_self x xs)
    have hxs := ih fun y hy => h y (List.mem_cons_of_mem x hy)
    simp [lastIdxWith, hxs, hx]

theorem lastIdxWith_isSome {p : α → Bool} {xs : List α} {x : α}
    (hmem : x ∈ xs) (hp : p x = true) : ∃ i, lastIdxWith p xs = some i := by
  induction xs with
  | nil => simp at hmem
  | cons y ys ih =>
    simp only [lastIdxWith]
    cases hys : lastIdxWith p ys with
    | some k => exact ⟨k + 1, rfl⟩
    | none =>
      rcases List.mem_cons.1 hmem with h | h
      · subst h; simp [hp]
      · rcases ih h with ⟨i, hi⟩
        rw [hi] at hys
        cases hys

/-- With pairwise-distinct designations (the data-set invariant recorded in
the spec), the designation index maps the designation of the NEO at
position `i` back to position `i`. -/
theorem desLookup_of_nodup {neos : List NearEarthObject} {i : Nat}
    {n : NearEarthObject} {d : String}
    (hnodup : (neos.map (·.designation)).Nodup)
    (hi : neos.get? i = some n) (hd : n.designation = some d) :
    desLookup neos (some d) = some i := by
  induction neos generalizing i with
  | nil => simp at hi
  | cons m ms ih =>
    simp only [List.map_cons, List.nodup_cons] at hnodup
    cases i with
    | zero =>
      simp only [List.get?_cons_zero, Option.some.injEq] at hi
      subst hi
      have hnone : lastIdxWith (fun x => x.designation == some d) ms = none := by
        apply lastIdxWith_eq_none
        intro y hy
        have : y.designation ≠ m.designation := by
          intro hcontra
          exact hnodup.1 (hcontra ▸ List.mem_map_of_mem (fun x => x.designation) hy)
        simp [hd ▸ this]
      simp [desLookup, lastIdxWith, hnone, hd]
    | succ k =>
      simp only [List.get?_cons_succ] at hi
      have := ih hnodup.2 hi
      simp only [desLookup] at this ⊢
      simp [lastIdxWith, this]

/-- Soundness of the designation index: a hit at position `i` means the
NEO stored at `i` carries the looked-up designation. -/
theorem desLookup_inv {neos : List NearEarthObject} {i : Nat}
    {n : NearEarthObject} {k : Option String}
    (hi : neos.get? i = some n) (h : desLookup neos k = some i) :
    n.designation = k := by
  rcases lastIdxWith_sound h with ⟨m, hm, hpm⟩
  rw [hi] at hm
  cases hm
  exact eq_of_beq hpm

/-- Final NEO list of the linking loop: each NEO keeps all its fields and
gains, in order, the positions of the approaches whose staging designation
resolves to its own position. -/
theorem linkLoop_fst_get? (lookup : String → Option Nat) (neos : List NearEarthObject)
    (j : Nat) (cas : List CloseApproach) (i : Nat) :
    ((linkLoop lookup neos j cas).1).get? i
      = (neos.get? i).map (fun n =>
          { n with approaches := n.approaches
              ++ ((indexed j cas).filter
                    (fun p => lookup p.2._designation == some i)).map Prod.fst }) := by
  induction cas generalizing neos j with
  | nil =>
    simp only [linkLoop, indexed, List.filter_nil, List.map_nil, List.append_nil]
    cases neos.get? i <;> simp
  | cons ca rest ih =>
    cases hl : lookup ca._designation with
    | some i' =>
      simp only [linkLoop, hl]
      rw [ih, modifyAt_get?]
      by_cases hii : i = i'
      · subst hii
        have hpred : (lookup ((j, ca)).2._designation == some i) = true := by
          simp [hl]
        simp only [indexed, List.filter_cons, hpred, if_true, List.map_cons]
        cases neos.get? i <;> simp
      · have hpred : (lookup ((j, ca)).2._designation == some i) = false := by
          simp only [hl, beq_eq_false_iff_ne, ne_eq, Option.some.injEq]
          exact fun h => hii h.symm
        simp only [indexed, List.filter_cons, hpred, Bool.false_eq_true, if_false,
          if_neg hii]
    | none =>
      simp only [linkLoop, hl]
      rw [ih]
      have hpred : (lookup ((j, ca)).2._designation == some i) = false := by
        simp [hl]
      simp only [indexed, List.filter_cons, hpred, Bool.false_eq_true, if_false]

/-- Final approach list of the linking loop: each approach keeps its
fields, with `neo` set to the resolved position on a hit and untouched on
a miss. -/
theorem linkLoop_snd (lookup : String → Option Nat) (neos : List NearEarthObject)
    (j : Nat) (cas : List CloseApproach) :
    (linkLoop lookup neos j cas).2
      = (indexed j cas).map (fun p =>
          match lookup p.2._designation with
          | some i => { p.2 with neo := some i }
          | none => p.2) := by
  induction cas generalizing neos j with
  | nil => rfl
  | cons ca rest ih =>
    cases hl : lookup ca._designation <;>
      simp [linkLoop, hl, indexed, ih]

/-- Under the unique-designation invariant, resolving a staging
designation against the index agrees with comparing it to the designation
of the NEO at position `i`. -/
theorem desLookup_beq_eq {neos : List NearEarthObject} {i : Nat}
    {n : NearEarthObject}
    (hnodup : (neos.map (·.designation)).Nodup)
    (hi : neos.get? i = some n) (d : String) :
    (desLookup neos (some d) == some i) = (n.designation == some d) := by
  by_cases hnd : n.designation = some d
  · rw [desLookup_of_nodup hnodup hi hnd, hnd]
    simp
  · have h1 : desLookup neos (some d) ≠ some i := fun hc => hnd (desLookup_inv hi hc)
    rw [beq_eq_false_iff_ne.mpr h1, Eq.symm (beq_eq_false_iff_ne.mpr hnd)]

/-! The claim theorems. -/

/-- C1: after catalog construction, every approach whose staging
designation equals the designation of some NEO has its `neo` reference set
to that NEO (modelled: to that NEO's position `i`), and the NEO's
`approaches` sequence is exactly the positions of its matching approaches
in approach-collection order — so each such approach appears in it exactly
once, and the appearances preserve the collection order.  The hypotheses
record the spec's data-model invariants: designations are unique, and
freshly constructed NEOs carry empty `approaches`. -/
theorem catalog_links_matching_approaches
    (neos : List NearEarthObject) (cas : List CloseApproach)
    (hnodup : (neos.map (·.designation)).Nodup)
    (hempty : ∀ n ∈ neos, n.approaches = [])
    (i : Nat) (n : NearEarthObject) (hi : neos.get? i = some n) :
    (mkNEODatabase neos cas)._neos.get? i
      = some { n with approaches :=
          ((indexed 0 cas).filter
            (fun p => n.designation == some p.2._designation)).map Prod.fst } ∧
    ∀ j ca, cas.get? j = some ca → n.designation = some ca._designation →
      ((mkNEODatabase neos cas)._approaches.get? j).map (·.neo) = some (some i) ∧
      ∃ n', (mkNEODatabase neos cas)._neos.get? i = some n' ∧
        n'.approaches.count j = 1 := by
  have hfun : (fun p : Nat × CloseApproach =>
        desLookup neos (some p.2._designation) == some i)
      = (fun p : Nat × CloseApproach => n.designation == some p.2._designation) :=
    funext fun p => desLookup_beq_eq hnodup hi p.2._designation
  have hneos : (mkNEODatabase neos cas)._neos.get? i
      = some { n with approaches :=
          ((indexed 0 cas).filter
            (fun p => n.designation == some p.2._designation)).map Prod.fst } := by
    show ((linkLoop (fun d => desLookup neos (some d)) neos 0 cas).1).get? i = _
    rw [linkLoop_fst_get?, hi]
    simp only [Option.map_some', Option.some.injEq]
    rw [hempty n (List.get?_mem hi)]
    rw [List.nil_append]
    rw [hfun]
  refine ⟨hneos, ?_⟩
  intro j ca hj hd
  have hlk : desLookup neos (some ca._designation) = some i :=
    desLookup_of_nodup hnodup hi hd
  constructor
  · show (((linkLoop (fun d => desLookup neos (some d)) neos 0 cas).2).get? j).map _ = _
    rw [linkLoop_snd, List.get?_map, indexed_get?, hj]
    simp [hlk]
  · refine ⟨_, hneos, ?_⟩
    have hnd : (((indexed 0 cas).filter
        (fun p => n.designation == some p.2._designation)).map Prod.fst).Nodup := by
      refine List.Nodup.sublist ?_ (indexed_map_fst_nodup 0 cas)
      exact List.Sublist.map Prod.fst (List.filter_sublist _)
    have hmemidx : ((j, ca) : Nat × CloseApproach) ∈ indexed 0 cas := by
      apply List.get?_mem (n := j)
      rw [indexed_get?, hj]
      simp
    have hmem : j ∈ ((indexed 0 cas).filter
        (fun p => n.designation == some p.2._designation)).map Prod.fst := by
      refine List.mem_map.2 ⟨(j, ca), ?_, rfl⟩
      refine List.mem_filter.2 ⟨hmemidx, ?_⟩
      simp [hd]
    exact List.count_eq_one_of_mem hnd hmem

/-- Witness for C1: in the spec's worked example (NEO 433 Eros and its
single matching approach) the approach is linked to NEO position 0 and
appears exactly once in its `approaches`. -/
theorem catalog_links_matching_approaches_witness :
    (mkNEODatabase [n433] [ca433])._neos.get? 0
      = some { n433 with approaches := [0] } ∧
    ((mkNEODatabase [n433] [ca433])._approaches.get? 0).map (·.neo)
      = some (some 0) ∧
    ∃ n', (mkNEODatabase [n433] [ca433])._neos.get? 0 = some n' ∧
      n'.approaches.count 0 = 1 := by
  have h := catalog_links_matching_approaches [n433] [ca433]
    (by decide) (by decide) 0 n433 rfl
  have h2 := h.2 0 ca433 rfl rfl
  exact ⟨h.1, h2.1, h2.2⟩

/-- C2: an approach whose staging designation matches no NEO designation
is left untouched by catalog construction: its `neo` stays `None`, it
lands in no NEO's `approaches` sequence, and it is still present (at its
original position) in the full approach collection, whose length is
unchanged — and construction itself is a total function, so no error is
raised.  The hypotheses record that the inputs are freshly constructed
(`neo` unset, `approaches` empty). -/
theorem catalog_ignores_unmatched_approaches
    (neos : List NearEarthObject) (cas : List CloseApproach)
    (hempty : ∀ n ∈ neos, n.approaches = [])
    (j : Nat) (ca : CloseApproach) (hj : cas.get? j = some ca)
    (hnomatch : ∀ n ∈ neos, n.designation ≠ some ca._designation)
    (hneo : ca.neo = none) :
    (mkNEODatabase neos cas)._approaches.get? j = some ca ∧
    ((mkNEODatabase neos cas)._approaches.get? j).map (·.neo) = some none ∧
    (∀ i n', (mkNEODatabase neos cas)._neos.get? i = some n' → j ∉ n'.approaches) ∧
    (mkNEODatabase neos cas)._approaches.length = cas.length := by
  have hlk : desLookup neos (some ca._designation) = none := by
    apply lastIdxWith_eq_none
    intro n hn
    exact beq_eq_false_iff_ne.mpr (hnomatch n hn)
  have happ : (mkNEODatabase neos cas)._approaches.get? j = some ca := by
    show ((linkLoop (fun d => desLookup neos (some d)) neos 0 cas).2).get? j = _
    rw [linkLoop_snd, List.get?_map, indexed_get?, hj]
    simp [hlk]
  refine ⟨happ, by rw [happ]; simp [hneo], ?_, ?_⟩
  · intro i n' hn' hjmem
    have hni := linkLoop_fst_get? (fun d => desLookup neos (some d)) neos 0 cas i
    change (mkNEODatabase neos cas)._neos.get? i = _ at hni
    rw [hn'] at hni
    cases hg : neos.get? i with
    | none => rw [hg] at hni; cases hni
    | some m =>
      rw [hg] at hni
      simp only [Option.map_some', Option.some.injEq] at hni
      rw [hni] at hjmem
      simp only [hempty m (List.get?_mem hg), List.nil_append] at hjmem
      rcases List.mem_map.1 hjmem with ⟨p, hpmem, hpfst⟩
      rcases List.mem_filter.1 hpmem with ⟨hpidx, hppred⟩
      have hget := (mem_indexed hpidx).2
      rw [Nat.sub_zero, hpfst, hj] at hget
      cases hget
      rw [hlk] at hppred
      simp at hppred
  · show ((linkLoop (fun d => desLookup neos (some d)) neos 0 cas).2).length = _
    rw [linkLoop_snd, List.length_map, indexed_length]

/-- Witness for C2: the approach staged under designation `"999"` is
untouched by a catalog holding only NEO 433. -/
theorem catalog_ignores_unmatched_approaches_witness :
    (mkNEODatabase [n433] [caMiss])._approaches.get? 0 = some caMiss ∧
    ((mkNEODatabase [n433] [caMiss])._approaches.get? 0).map (·.neo) = some none ∧
    (∀ i n', (mkNEODatabase [n433] [caMiss])._neos.get? i = some n' →
      0 ∉ n'.approaches) ∧
    (mkNEODatabase [n433] [caMiss])._approaches.length = [caMiss].length :=
  catalog_ignores_unmatched_approaches [n433] [caMiss]
    (by decide) 0 caMiss rfl (by decide) rfl

/-- The generator loop of `query` yields exactly a filter of the backing
collection. -/
theorem queryGen_eq_filter (filters : List (CloseApproach → Bool))
    (l : List CloseApproach) :
    queryGen filters l = l.filter (fun ca => filters.all (fun f => f ca)) := by
  induction l with
  | nil => rfl
  | cons x xs ih => simp only [queryGen, List.filter_cons, ih]

/-- C3: `query(filters)` yields exactly the approaches of the full
collection for which every predicate returns true, in the collection's
original storage order (it is a filter of the backing list, hence a
sublist of it); `query` with no filters yields the whole collection, and
`query` with an always-false predicate yields nothing. -/
theorem query_matches_all_filters
    (db : NEODatabase) (filters : List (CloseApproach → Bool)) :
    db.query filters = db._approaches.filter (fun ca => filters.all (fun f => f ca)) ∧
    List.Sublist (db.query filters) db._approaches ∧
    (∀ ca, ca ∈ db.query filters ↔ ca ∈ db._approaches ∧ ∀ f ∈ filters, f ca = true) ∧
    db.query [] = db._approaches ∧
    db.query [fun _ => false] = [] := by
  have hq : ∀ fs : List (CloseApproach → Bool),
      db.query fs = db._approaches.filter (fun ca => fs.all (fun f => f ca)) :=
    fun fs => queryGen_eq_filter fs db._approaches
  refine ⟨hq filters, ?_, ?_, ?_, ?_⟩
  · rw [hq]
    exact List.filter_sublist _
  · intro ca
    rw [hq, List.mem_filter]
    simp [List.all_eq_true]
  · rw [hq]
    simp
  · rw [hq]
    simp

/-- Witness for C3, on the example catalog: no filters yields the full
collection, an always-false filter yields nothing, and a concrete
always-true filter keeps the single approach. -/
theorem query_matches_all_filters_witness :
    (mkNEODatabase [n433] [ca433]).query [] = (mkNEODatabase [n433] [ca433])._approaches ∧
    (mkNEODatabase [n433] [ca433]).query [fun _ => false] = [] ∧
    (mkNEODatabase [n433] [ca433]).query [fun ca => ca.velocity.truthy]
      = (mkNEODatabase [n433] [ca433])._approaches.filter
          (fun ca => [fun ca => ca.velocity.truthy].all (fun f => f ca)) :=
  ⟨(query_matches_all_filters (mkNEODatabase [n433] [ca433]) []).2.2.2.1,
   (query_matches_all_filters (mkNEODatabase [n433] [ca433]) []).2.2.2.2,
   (query_matches_all_filters (mkNEODatabase [n433] [ca433])
     [fun ca => ca.velocity.truthy]).1⟩

/-- C4 fails on the code: the name index is built by
`{neo.name: neo for neo in self._neos}`, ranging over ALL NEOs, so an
unnamed NEO (whose `name` attribute is `None`) is indexed under the `None`
key and `get_neo_by_name(None)` returns it instead of the not-found
signal — contradicting both the claim and the method's own docstring
("No NEOs are associated with ... the `None` singleton").  This theorem
evaluates the code at the failing input; the absent-designation and
absent-name lookups do behave as claimed. -/
theorem get_neo_by_name_none_hits_unnamed :
    (mkNEODatabase [nNoName] []).get_neo_by_name none = some nNoName ∧
    (mkNEODatabase [nNoName] []).get_neo_by_name (some "missing") = none ∧
    (mkNEODatabase [nNoName] []).get_neo_by_name (some "") = none ∧
    (mkNEODatabase [nNoName] []).get_neo_by_designation (some "missing") = none :=
  ⟨rfl, rfl, rfl, rfl⟩

/-- Constructing an NEO succeeds exactly when the diameter coercion does,
and every other field is a pure function of the field bag. -/
theorem mkNEO_ok_iff {info : NEOInfo} {n : NearEarthObject} :
    mkNEO info = Except.ok n ↔
      ∃ d, neoDiameterOf info = Except.ok d ∧
        n = { designation := info.pdes, name := neoNameOf info, diameter := d,
              hazardous := neoHazardousOf info, approaches := [] } := by
  cases hd : neoDiameterOf info with
  | ok d => simp [mkNEO, hd, Except.map, eq_comm]
  | error e => simp [mkNEO, hd, Except.map]

/-- The guard `info.get('diameter') and is_blank(...)` collapses to the
`is_blank` test, because `is_blank` already rejects the empty string. -/
theorem truthy_and_is_blank (s : String) : (s != "" && is_blank s) = is_blank s := by
  cases h : s != "" <;> simp [is_blank, h]

/-- C5 counterexample: on a non-blank, non-numeric diameter string the
`float(...)` coercion raises `ValueError`, so `NearEarthObject`
construction fails rather than defaulting the diameter to NaN as the
claim states. -/
theorem neo_nonnumeric_diameter_raises :
    mkNEO { pdes := some "2101", name := some "Adonis", diameter := some "abc",
            pha := none }
      = Except.error "could not convert string to float" := rfl

/-- C5 as amended: a blank or missing diameter field yields the NaN
sentinel and construction succeeds; a non-blank numeric field yields its
numeric value; but a non-blank, NON-numeric field makes construction
raise (the coercion error propagates), matching the spec's own
error-handling section. -/
theorem neo_diameter_coercion (info : NEOInfo) :
    (info.diameter = none →
      ∃ n, mkNEO info = Except.ok n ∧ n.diameter = PyFloat.nan) ∧
    (∀ s, info.diameter = some s → is_blank s = false →
      ∃ n, mkNEO info = Except.ok n ∧ n.diameter = PyFloat.nan) ∧
    (∀ s v, info.diameter = some s → is_blank s = true → pyFloatOfString? s = some v →
      ∃ n, mkNEO info = Except.ok n ∧ n.diameter = v) ∧
    (∀ s, info.diameter = some s → is_blank s = true → pyFloatOfString? s = none →
      mkNEO info = Except.error "could not convert string to float") := by
  refine ⟨?_, ?_, ?_, ?_⟩
  · intro h
    refine ⟨_, mkNEO_ok_iff.mpr ⟨PyFloat.nan, ?_, rfl⟩, rfl⟩
    simp [neoDiameterOf, h]
  · intro s h hb
    refine ⟨_, mkNEO_ok_iff.mpr ⟨PyFloat.nan, ?_, rfl⟩, rfl⟩
    simp [neoDiameterOf, h, truthy_and_is_blank, hb]
  · intro s v h hb hp
    have hs : ¬s = "" := by
      simp [is_blank] at hb
      exact hb.1
    refine ⟨_, mkNEO_ok_iff.mpr ⟨v, ?_, rfl⟩, rfl⟩
    simp [neoDiameterOf, h, truthy_and_is_blank, hb, hp, hs]
  · intro s h hb hp
    have hs : ¬s = "" := by
      simp [is_blank] at hb
      exact hb.1
    simp [mkNEO, neoDiameterOf, h, truthy_and_is_blank, hb, hp, hs, Except.map]

/-- Witness for C5 as amended: one concrete input per branch — missing,
blank, numeric (`16.84`), and non-numeric diameter fields. -/
theorem neo_diameter_coercion_witness :
    (∃ n, mkNEO { pdes := some "1", name := none, diameter := none, pha := none }
        = Except.ok n ∧ n.diameter = PyFloat.nan) ∧
    (∃ n, mkNEO { pdes := some "1", name := none, diameter := some "  ", pha := none }
        = Except.ok n ∧ n.diameter = PyFloat.nan) ∧
    (∃ n, mkNEO { pdes := some "1", name := none, diameter := some "16.84", pha := none }
        = Except.ok n ∧ n.diameter = PyFloat.num (mkRat 1684 100)) ∧
    mkNEO { pdes := some "1", name := none, diameter := some "abc", pha := none }
      = Except.error "could not convert string to float" :=
  ⟨(neo_diameter_coercion
      { pdes := some "1", name := none, diameter := none, pha := none }).1 rfl,
   (neo_diameter_coercion
      { pdes := some "1", name := none, diameter := some "  ", pha := none }).2.1
      "  " rfl rfl,
   (neo_diameter_coercion
      { pdes := some "1", name := none, diameter := some "16.84", pha := none }).2.2.1
      "16.84" (PyFloat.num (mkRat 1684 100)) rfl rfl rfl,
   (neo_diameter_coercion
      { pdes := some "1", name := none, diameter := some "abc", pha := none }).2.2.2
      "abc" rfl rfl rfl⟩

/-- C6: a constructed NEO is hazardous exactly when the source `pha`
field is the single-letter affirmative code `'Y'` or `'y'`; any other
value, a blank and a missing field all yield `False`. -/
theorem neo_hazardous_iff (info : NEOInfo) (n : NearEarthObject)
    (h : mkNEO info = Except.ok n) :
    n.hazardous = true ↔ (info.pha = some "Y" ∨ info.pha = some "y") := by
  rcases mkNEO_ok_iff.1 h with ⟨d, hd, hn⟩
  subst hn
  show neoHazardousOf info = true ↔ _
  cases hp : info.pha with
  | none => simp [neoHazardousOf, hp]
  | some s =>
    simp only [neoHazardousOf, hp, Bool.and_eq_true, Bool.or_eq_true, beq_iff_eq,
      bne_iff_ne, ne_eq, Option.some.injEq]
    constructor
    · exact fun hh => hh.2
    · intro hh
      refine ⟨?_, hh⟩
      rcases hh with rfl | rfl <;> decide

/-- Witness for C6: NEO 433 Eros has `pha = "N"`, hence is not
hazardous. -/
theorem neo_hazardous_iff_witness :
    mkNEO ex433info = Except.ok n433 ∧
    (n433.hazardous = true ↔ (ex433info.pha = some "Y" ∨ ex433info.pha = some "y")) :=
  ⟨rfl, neo_hazardous_iff ex433info n433 rfl⟩

/-- C7: `CloseApproach.serialize` maps distance and velocity to the NaN
sentinel whenever the stored float is falsy (in particular exactly `0.0`)
and to the stored value otherwise; consequently an approach built with a
literal `"0.0"` distance serializes identically to one whose distance
field was missing entirely. -/
theorem approach_serialize_falsy_fallback (ca : CloseApproach) :
    (ca.distance.truthy = false → ca.serialize.distance_au = PyFloat.nan) ∧
    (ca.distance = PyFloat.num 0 → ca.serialize.distance_au = PyFloat.nan) ∧
    (ca.distance.truthy = true → ca.serialize.distance_au = ca.distance) ∧
    (ca.velocity.truthy = false → ca.serialize.velocity_km_s = PyFloat.nan) ∧
    (ca.velocity = PyFloat.num 0 → ca.serialize.velocity_km_s = PyFloat.nan) ∧
    (ca.velocity.truthy = true → ca.serialize.velocity_km_s = ca.velocity) ∧
    (mkCloseApproach { des := some "X", dist := some "0.0", cd := none, v_rel := none }).map
        (fun c => c.serialize)
      = (mkCloseApproach { des := some "X", dist := none, cd := none, v_rel := none }).map
        (fun c => c.serialize) := by
  refine ⟨?_, ?_, ?_, ?_, ?_, ?_, rfl⟩
  · intro h
    simp [CloseApproach.serialize, h]
  · intro h
    simp [CloseApproach.serialize, h, PyFloat.truthy]
  · intro h
    simp [CloseApproach.serialize, h]
  · intro h
    simp [CloseApproach.serialize, h]
  · intro h
    simp [CloseApproach.serialize, h, PyFloat.truthy]
  · intro h
    simp [CloseApproach.serialize, h]

/-- Witness for C7: the unlinked example approach `caMiss` has zero
distance and velocity, and both serialize to NaN; the example approach of
the spec has truthy distance, which serializes unchanged. -/
theorem approach_serialize_falsy_fallback_witness :
    caMiss.serialize.distance_au = PyFloat.nan ∧
    caMiss.serialize.velocity_km_s = PyFloat.nan ∧
    ca433.serialize.distance_au = ca433.distance :=
  ⟨(approach_serialize_falsy_fallback caMiss).2.1 rfl,
   (approach_serialize_falsy_fallback caMiss).2.2.2.1 rfl,
   (approach_serialize_falsy_fallback ca433).2.2.1 rfl⟩

/-- A constructed NEO never stores a blank name: when `name` is present it
passed the constructor's truthiness-and-`is_blank` guard. -/
theorem mkNEO_name_not_blank {info : NEOInfo} {n : NearEarthObject} {s : String}
    (h : mkNEO info = Except.ok n) (hs : n.name = some s) :
    (s != "" && is_blank s) = true := by
  rcases mkNEO_ok_iff.1 h with ⟨d, hd, hn⟩
  subst hn
  have hs' : neoNameOf info = some s := hs
  cases ht : info.name with
  | none =>
    rw [neoNameOf, ht] at hs'
    cases hs'
  | some t =>
    have hs2 : (if t != "" && is_blank t then some t else (none : Option String))
        = some s := by
      rw [neoNameOf, ht] at hs'
      exact hs'
    by_cases hc : (t != "" && is_blank t) = true
    · rw [if_pos hc] at hs2
      cases hs2
      exact hc
    · rw [if_neg hc] at hs2
      cases hs2

/-- C8: `NearEarthObject.serialize` carries the designation, diameter and
hazard flag through unchanged and renders an absent name as the empty
string (never a null — the serialized `name` has string type) and a
present name as itself. -/
theorem neo_serialize_fields (info : NEOInfo) (n : NearEarthObject)
    (h : mkNEO info = Except.ok n) :
    n.serialize.designation = n.designation ∧
    (n.name = none → n.serialize.name = "") ∧
    (∀ s, n.name = some s → n.serialize.name = s) ∧
    n.serialize.diameter_km = n.diameter ∧
    n.serialize.potentially_hazardous = n.hazardous := by
  refine ⟨rfl, ?_, ?_, rfl, rfl⟩
  · intro hnone
    simp [NearEarthObject.serialize, hnone]
  · intro s hs
    have hc := mkNEO_name_not_blank h hs
    simp [NearEarthObject.serialize, hs, hc]

/-- Witness for C8, the spec's worked example: the NEO built from
`{pdes: "433", name: "Eros", diameter: "16.84", pha: "N"}` serializes to
designation `"433"`, name `"Eros"`, diameter `16.84` km (the exact
rational `mkRat 1684 100`) and hazardous `False`. -/
theorem neo_serialize_fields_witness :
    mkNEO ex433info = Except.ok n433 ∧
    n433.serialize.designation = some "433" ∧
    n433.serialize.name = "Eros" ∧
    n433.serialize.diameter_km = PyFloat.num (mkRat 1684 100) ∧
    n433.serialize.potentially_hazardous = false := by
  have h := neo_serialize_fields ex433info n433 rfl
  exact ⟨rfl, (h.1).trans rfl, h.2.2.1 "Eros" rfl, (h.2.2.2.1).trans rfl,
    (h.2.2.2.2).trans rfl⟩

/-- C9: `fullname` is the designation alone when the name is absent, and
`"designation (name)"` when a name is present. -/
theorem neo_fullname_spec (info : NEOInfo) (n : NearEarthObject)
    (h : mkNEO info = Except.ok n) :
    (n.name = none → n.fullname = pyStr n.designation) ∧
    (∀ s, n.name = some s →
      n.fullname = pyStr n.designation ++ " (" ++ s ++ ")") := by
  constructor
  · intro hnone
    simp [NearEarthObject.fullname, hnone]
  · intro s hs
    have hc := mkNEO_name_not_blank h hs
    have hne : ¬s = "" := by
      simp only [Bool.and_eq_true, bne_iff_ne, ne_eq] at hc
      exact hc.1
    simp [NearEarthObject.fullname, hs, hne]

/-- Witness for C9: NEO 433 Eros has fullname `"433 (Eros)"`, as in the
spec's worked example. -/
theorem neo_fullname_spec_witness :
    mkNEO ex433info = Except.ok n433 ∧ n433.fullname = "433 (Eros)" := by
  have h := neo_fullname_spec ex433info n433 rfl
  exact ⟨rfl, (h.2 "Eros" rfl).trans rfl⟩

/-- C10: a field bag without a `pdes` key still constructs successfully,
with the `None` designation; and a `None`-designated NEO is indexed under
the `None` key of the designation index like any other designation, so
`get_neo_by_designation(None)` finds a `None`-designated NEO. -/
theorem none_designation_like_any_other
    (info : NEOInfo) (neos : List NearEarthObject) (cas : List CloseApproach) :
    (info.pdes = none → ∀ n, mkNEO info = Except.ok n → n.designation = none) ∧
    ((∃ n ∈ neos, n.designation = none) →
      ∃ n', (mkNEODatabase neos cas).get_neo_by_designation none = some n' ∧
        n'.designation = none) := by
  constructor
  · intro hp n h
    rcases mkNEO_ok_iff.1 h with ⟨d, hd, hn⟩
    subst hn
    exact hp
  · rintro ⟨n, hmem, hdes⟩
    rcases List.mem_iff_get?.1 hmem with ⟨i, hi⟩
    have hni := linkLoop_fst_get? (fun d => desLookup neos (some d)) neos 0 cas i
    change (mkNEODatabase neos cas)._neos.get? i = _ at hni
    rw [hi] at hni
    simp only [Option.map_some'] at hni
    have hmem' := List.get?_mem hni
    rcases lastIdxWith_isSome (p := fun m => m.designation == (none : Option String))
      hmem' (by simp [hdes]) with ⟨k, hk⟩
    rcases lastIdxWith_sound hk with ⟨m, hm, hpm⟩
    refine ⟨m, ?_, eq_of_beq hpm⟩
    show (desLookup (mkNEODatabase neos cas)._neos none).bind _ = some m
    rw [show desLookup (mkNEODatabase neos cas)._neos none = some k from hk]
    simpa using hm

/-- Witness for C10: the NEO built from an empty field bag has the `None`
designation, and a catalog holding it answers
`get_neo_by_designation(None)` with a `None`-designated NEO. -/
theorem none_designation_like_any_other_witness :
    mkNEO { pdes := none, name := none, diameter := none, pha := none }
      = Except.ok nNoDes ∧
    nNoDes.designation = none ∧
    (∃ n', (mkNEODatabase [nNoDes] []).get_neo_by_designation none = some n' ∧
      n'.designation = none) := by
  refine ⟨rfl, ?_, ?_⟩
  · exact (none_designation_like_any_other
      { pdes := none, name := none, diameter := none, pha := none } [nNoDes] []).1
      rfl nNoDes rfl
  · exact (none_designation_like_any_other
      { pdes := none, name := none, diameter := none, pha := none } [nNoDes] []).2
      ⟨nNoDes, by simp, rfl⟩
